import Mathlib

/-!
Verification development for the Lumus_Max9814 audio-inference sketch
(`src/Lumus_Max9814.ino`).

The sketch continuously samples an analog microphone signal on an ESP32,
assembles fixed-size windows of `int16` samples in a shared inference
buffer, and hands each completed window to an external classifier; a GPIO
pin is driven from the classification confidence.

This file gives a shallow embedding of the pipeline:
* `inference_t` mirrors the C struct of the same name (the allocated
  storage is carried as a `List Int` of the buffered `int16` values;
  `buf_ready` is the ready flag; `buf_count` the fill counter);
* `appendSample` is one iteration of the loop body of
  `audio_inference_callback`, and `audio_inference_callback` folds it
  over the batch handed over from the scratch buffer;
* `capture_samples` is the FreeRTOS producer task, modelled as a
  fuel-bounded loop over a stream of flag observations (the value of the
  shared `record_status` flag at each successive read) and a stream of
  raw ADC values;
* `microphone_inference_start`, `microphone_inference_record` (split into
  its polling loop and its state effect), `microphone_audio_signal_get_data`
  and `microphone_inference_end` embed the lifecycle and consumer side;
* `loop_step` embeds the actuator decision of the Arduino `loop`.
-/

namespace LumusMax9814

/-- Mirror of the C struct `inference_t` (`src/Lumus_Max9814.ino:10-15`).
`buffer` carries the contents of the `int16_t *buffer` storage,
`buf_ready` the `uint8_t buf_ready` flag (as `Bool`), `buf_count` the
`uint32_t buf_count` fill counter and `n_samples` the window size. -/
structure inference_t where
  buffer : List Int
  buf_ready : Bool
  buf_count : ℕ
  n_samples : ℕ
deriving DecidableEq, Repr

/-- Size of the static scratch buffer `sampleBuffer`
(`static const uint32_t sample_buffer_size = 2048`, line 18). -/
def sample_buffer_size : ℕ := 2048

/-- One iteration of the loop body of `audio_inference_callback`
(lines 165-172): write the sample at index `buf_count`, increment
`buf_count`, and if the incremented counter has reached `n_samples`,
reset it to 0 and raise `buf_ready`. -/
def appendSample (st : inference_t) (x : Int) : inference_t :=
  let st1 : inference_t :=
    { st with buffer := st.buffer.set st.buf_count x, buf_count := st.buf_count + 1 }
  if st1.n_samples ≤ st1.buf_count then
    { st1 with buf_count := 0, buf_ready := true }
  else st1

/-- `audio_inference_callback(n_samples)` (lines 164-173): fold the batch
of samples read into the scratch buffer into the inference buffer, one
`appendSample` per sample. -/
def audio_inference_callback (st : inference_t) (samples : List Int) : inference_t :=
  samples.foldl appendSample st

/-- Fill-counter / ready-flag evolution of a run of appends, generalised
over the starting counter `c` and the starting flag `r`: appending `xs`
from counter `c < N` leaves the counter at `(c + xs.length) % N`, and the
flag is raised exactly when at least one wrap happened, i.e. when
`N ≤ c + xs.length` (the flag is sticky: once raised it stays raised). -/
lemma callback_count_ready (N : ℕ) (hN : 0 < N) (xs : List Int) :
    ∀ (b : List Int) (r : Bool) (c : ℕ), c < N →
      (audio_inference_callback ⟨b, r, c, N⟩ xs).buf_count = (c + xs.length) % N ∧
      (audio_inference_callback ⟨b, r, c, N⟩ xs).buf_ready
        = (r || decide (N ≤ c + xs.length)) := by
  induction xs with
  | nil =>
      intro b r c hc
      simp [audio_inference_callback, Nat.mod_eq_of_lt hc,
        Nat.not_le_of_lt hc]
  | cons x xs ih =>
      intro b r c hc
      have hstep : audio_inference_callback ⟨b, r, c, N⟩ (x :: xs)
          = audio_inference_callback (appendSample ⟨b, r, c, N⟩ x) xs := rfl
      simp only [List.length_cons]
      by_cases hwrap : N ≤ c + 1
      · -- the counter wraps on this append: c + 1 = N
        have hcN : c + 1 = N := Nat.le_antisymm hc hwrap
        have happ : appendSample ⟨b, r, c, N⟩ x
            = ⟨b.set c x, true, 0, N⟩ := by
          simp [appendSample, hwrap]
        rw [hstep, happ]
        obtain ⟨h1, h2⟩ := ih (b.set c x) true 0 hN
        constructor
        · rw [h1]
          have hsum : c + (xs.length + 1) = N + xs.length := by omega
          rw [hsum, Nat.zero_add, Nat.add_mod_left]
        · rw [h2]
          have hle : N ≤ c + (xs.length + 1) := by omega
          simp [hle]
      · -- no wrap: the counter just increments
        have happ : appendSample ⟨b, r, c, N⟩ x
            = ⟨b.set c x, r, c + 1, N⟩ := by
          simp [appendSample, hwrap]
        rw [hstep, happ]
        obtain ⟨h1, h2⟩ := ih (b.set c x) r (c + 1) (Nat.lt_of_not_le hwrap)
        have hsum : c + 1 + xs.length = c + (xs.length + 1) := by omega
        constructor
        · rw [h1, hsum]
        · rw [h2, hsum]

/-- C2: starting from `buf_count = 0` and `buf_ready = 0`, a run of `k`
per-sample appends leaves `buf_count = k % N` (so the counter returns to 0
exactly at every `N`-th append) and `buf_ready = decide (N ≤ k)` (so the
flag first becomes true at the `N`-th append and never before: for every
`k < N` it is still false, and the raising writes happen exactly at the
appends whose index is a multiple of `N`). -/
theorem c2_window_fill_protocol (N : ℕ) (b : List Int) (xs : List Int)
    (hN : 0 < N) :
    (audio_inference_callback ⟨b, false, 0, N⟩ xs).buf_count = xs.length % N ∧
    (audio_inference_callback ⟨b, false, 0, N⟩ xs).buf_ready
      = decide (N ≤ xs.length) := by
  obtain ⟨h1, h2⟩ := callback_count_ready N hN xs b false 0 hN
  exact ⟨by simpa using h1, by simpa using h2⟩

/-- Witness for C2 at `N = 3`: after exactly 3 appends the counter is
back at 0 and the ready flag is raised (and the same theorem at shorter
prefixes gives `buf_ready = false`). -/
theorem c2_window_fill_protocol_witness :
    (audio_inference_callback ⟨[0, 0, 0], false, 0, 3⟩ [5, 6, 7]).buf_count
        = [5, 6, 7].length % 3 ∧
    (audio_inference_callback ⟨[0, 0, 0], false, 0, 3⟩ [5, 6, 7]).buf_ready
        = decide (3 ≤ [5, 6, 7].length) :=
  c2_window_fill_protocol 3 [0, 0, 0] [5, 6, 7] (by decide)

/-- Conversion of a raw `int16` sample to the classifier's floating
format. Modelled from the spec: the routine `numpy::int16_to_float`
invoked by `microphone_audio_signal_get_data` lives in the external
`Lumos_inferencing` library, not under `src/`; the spec describes it as a
pure, stateless elementwise int-to-float scaling (each `int16` value is
scaled by `1/32768`), modelled here over `ℚ`. -/
def int16_to_float (x : Int) : ℚ := (x : ℚ) / 32768

/-- The state effect of `microphone_inference_record` (line 252): clear
the ready flag. The polling loop that precedes it is modelled separately
by `recordWaitLoop`. -/
def recordClearReady (st : inference_t) : inference_t :=
  { st with buf_ready := false }

/-- The `while (inference.buf_ready == 0) { delay(5); }` polling loop of
`microphone_inference_record` (lines 245-254), followed by `return ret`
with `ret = true`. Because the loop races with the producer, the ready
flag is modelled as a stream `readyAt` of the values observed at each
successive read; `fuel` bounds the number of polls (`none` means the
loop is still spinning when the fuel runs out — the function has no
other way not to return `true`). -/
def recordWaitLoop (readyAt : ℕ → Bool) : ℕ → ℕ → Option Bool
  | _, 0 => none
  | t, fuel + 1 =>
    if readyAt t = false then recordWaitLoop readyAt (t + 1) fuel
    else some true

/-- `microphone_audio_signal_get_data(offset, length, out_ptr)`
(lines 265-277): convert `length` samples of `inference.buffer` starting
at `offset` with `numpy::int16_to_float` and return 0. The pair carries
the written output window and the returned status code. -/
def microphone_audio_signal_get_data (st : inference_t) (offset len : ℕ) :
    List ℚ × Int :=
  (((st.buffer.drop offset).take len).map int16_to_float, 0)

/-- Taking one element past an updated index splits off the written
value: `(b.set c x).take (c+1) = b.take c ++ [x]` when `c` is in range. -/
lemma take_set_succ : ∀ (b : List Int) (c : ℕ) (x : Int), c < b.length →
    (b.set c x).take (c + 1) = b.take c ++ [x]
  | [], c, x, h => absurd h (by simp)
  | _ :: _, 0, _, _ => rfl
  | y :: b, c + 1, x, h => by
      have ih := take_set_succ b c x (by simpa using h)
      simp [List.set, List.take, ih]

/-- Dropping strictly past an updated index ignores the update:
`(b.set c x).drop k = b.drop k` when `c < k`. -/
lemma drop_set_of_lt : ∀ (b : List Int) (c k : ℕ) (x : Int), c < k →
    (b.set c x).drop k = b.drop k
  | [], _, _, _, _ => by simp
  | y :: b, 0, k, x, h => by
      obtain ⟨k, rfl⟩ := Nat.exists_eq_add_of_lt h
      simp [List.set]
  | y :: b, c + 1, k, x, h => by
      obtain ⟨k, rfl⟩ : ∃ m, k = m + 1 := ⟨k - 1, by omega⟩
      have ih := drop_set_of_lt b c k x (by omega)
      simp [List.set, ih]

/-- Buffer contents of a run of appends that stays inside one window:
appending `xs` from counter `c` with `c + xs.length ≤ N` writes `xs`
sequentially at positions `c, c+1, …` and leaves the rest of the storage
unchanged. (A wrap can only happen on the very last append, after its
write has landed.) -/
lemma callback_buffer (N : ℕ) (xs : List Int) :
    ∀ (b : List Int) (r : Bool) (c : ℕ), b.length = N → c + xs.length ≤ N →
      (audio_inference_callback ⟨b, r, c, N⟩ xs).buffer
        = b.take c ++ xs ++ b.drop (c + xs.length) := by
  induction xs with
  | nil =>
      intro b r c hb hc
      simp [audio_inference_callback]
  | cons x xs ih =>
      intro b r c hb hc
      simp only [List.length_cons] at hc
      have hcb : c < b.length := by omega
      have hstep : audio_inference_callback ⟨b, r, c, N⟩ (x :: xs)
          = audio_inference_callback (appendSample ⟨b, r, c, N⟩ x) xs := rfl
      by_cases hwrap : N ≤ c + 1
      · -- wrap on this append forces `xs = []` and `c + 1 = N`
        have hlen : xs.length = 0 := by omega
        have hxs : xs = [] := List.eq_nil_of_length_eq_zero hlen
        subst hxs
        have happ : appendSample ⟨b, r, c, N⟩ x
            = ⟨b.set c x, true, 0, N⟩ := by
          simp [appendSample, hwrap]
        rw [hstep, happ]
        show (b.set c x) = _
        rw [List.set_eq_take_cons_drop x hcb]
        simp
      · have happ : appendSample ⟨b, r, c, N⟩ x
            = ⟨b.set c x, r, c + 1, N⟩ := by
          simp [appendSample, hwrap]
        rw [hstep, happ]
        have hb1 : (b.set c x).length = N := by simpa using hb
        have hc1 : (c + 1) + xs.length ≤ N := by omega
        rw [ih (b.set c x) r (c + 1) hb1 hc1]
        rw [take_set_succ b c x hcb]
        rw [drop_set_of_lt b c (c + 1 + xs.length) x (by omega)]
        have hsum : c + 1 + xs.length = c + (xs.length + 1) := by omega
        rw [hsum]
        simp [List.length_cons]

/-- C3: one produce/claim exchange. Starting from an empty window
(`buf_count = 0`, `buf_ready` clear — the state left behind by the
previous window's completion), appending the next `N` samples `xs`
raises `buf_ready`; the claim (`microphone_inference_record` clearing
the flag, then reading the window through
`microphone_audio_signal_get_data`) yields exactly `xs`: the buffer holds
the last `N` appended values in order, and `get_data 0 N` returns their
elementwise `int16_to_float` image together with status 0. -/
theorem c3_claim_returns_last_window (N : ℕ) (b xs : List Int)
    (hN : 0 < N) (hb : b.length = N) (hxs : xs.length = N) :
    (audio_inference_callback ⟨b, false, 0, N⟩ xs).buf_ready = true ∧
    (recordClearReady (audio_inference_callback ⟨b, false, 0, N⟩ xs)).buffer
      = xs ∧
    microphone_audio_signal_get_data
      (recordClearReady (audio_inference_callback ⟨b, false, 0, N⟩ xs)) 0 N
      = (xs.map int16_to_float, 0) := by
  have hready := (callback_count_ready N hN xs b false 0 hN).2
  have hbuf := callback_buffer N xs b false 0 hb (by omega)
  have hbuffer : (audio_inference_callback ⟨b, false, 0, N⟩ xs).buffer = xs := by
    rw [hbuf]
    have : b.drop (0 + xs.length) = [] := by
      rw [Nat.zero_add, hxs, ← hb, List.drop_length]
    simp [this]
    omega
  refine ⟨?_, ?_, ?_⟩
  · rw [hready]
    simp [hxs]
  · simpa [recordClearReady] using hbuffer
  · simp only [microphone_audio_signal_get_data, recordClearReady]
    rw [hbuffer]
    simp [← hxs]

/-- Witness for C3 at `N = 2`: appending `[7, -8]` to a fresh two-sample
window raises the flag and the claimed window is `[7, -8]`. -/
theorem c3_claim_returns_last_window_witness :
    (audio_inference_callback ⟨[0, 0], false, 0, 2⟩ [7, -8]).buf_ready = true ∧
    (recordClearReady (audio_inference_callback ⟨[0, 0], false, 0, 2⟩ [7, -8])).buffer
      = [7, -8] ∧
    microphone_audio_signal_get_data
      (recordClearReady (audio_inference_callback ⟨[0, 0], false, 0, 2⟩ [7, -8])) 0 2
      = ([7, -8].map int16_to_float, 0) :=
  c3_claim_returns_last_window 2 [0, 0] [7, -8] (by decide) (by decide) (by decide)

/-- One atomic step on the shared inference buffer: either the producer
appends one sample (`audio_inference_callback` loop body) or the
consumer claims (`microphone_inference_record` clearing the ready
flag). -/
inductive BufStep : inference_t → inference_t → Prop
  | append (st : inference_t) (x : Int) : BufStep st (appendSample st x)
  | claim (st : inference_t) : BufStep st (recordClearReady st)

/-- States reachable from `start` by any interleaving of producer append
steps and consumer claim steps. -/
inductive BufReachable (start : inference_t) : inference_t → Prop
  | refl : BufReachable start start
  | step {s t : inference_t} :
      BufReachable start s → BufStep s t → BufReachable start t

/-- Concrete initial buffer state used by the C4 counterexample: a fresh
two-sample window (`buf_count = 0`, `buf_ready` clear, `n_samples = 2`). -/
def c4InitState : inference_t := ⟨[0, 0], false, 0, 2⟩

/-- Concrete reachable state used by the C4 counterexample: the result
of three producer appends with no intervening claim. -/
def c4BadState : inference_t := audio_inference_callback c4InitState [1, 2, 3]

/-- Counterexample to C4: `buf_ready = true` with `buf_count ≠ 0` IS
observable. From a fresh window of size 2, three producer appends with
no intervening consumer claim (an interleaving the claim quantifies
over) reach a state with `buf_ready = true` and `buf_count = 1`: the
flag is sticky, so once the window wraps, further appends increment the
counter while the flag stays raised. -/
theorem c4_ready_nonzero_count_counterexample :
    BufReachable c4InitState c4BadState ∧
    c4BadState.buf_ready = true ∧ c4BadState.buf_count = 1 := by
  refine ⟨?_, by decide, by decide⟩
  exact BufReachable.step
    (BufReachable.step
      (BufReachable.step BufReachable.refl (BufStep.append c4InitState 1))
      (BufStep.append (appendSample c4InitState 1) 2))
    (BufStep.append (appendSample (appendSample c4InitState 1) 2) 3)

/-- An append from a state with the ready flag clear can only show a
raised flag afterwards if the window wrapped, in which case the counter
was reset in the same step. -/
lemma appendSample_ready_of_false (st : inference_t) (x : Int)
    (h : st.buf_ready = false) :
    (appendSample st x).buf_ready = true → (appendSample st x).buf_count = 0 := by
  unfold appendSample
  by_cases hwrap : st.n_samples ≤ st.buf_count + 1
  · simp [hwrap]
  · simp [hwrap, h]

/-- One append keeps the fill counter strictly below the (unchanged)
window size. -/
lemma appendSample_count_lt (st : inference_t) (x : Int)
    (h : st.buf_count < st.n_samples) :
    (appendSample st x).buf_count < (appendSample st x).n_samples ∧
    (appendSample st x).n_samples = st.n_samples := by
  unfold appendSample
  by_cases hwrap : st.n_samples ≤ st.buf_count + 1
  · simp [hwrap]; omega
  · simp [hwrap]; omega

/-- Producer/consumer steps under the intended alternation discipline:
identical to `BufStep`, except that the producer appends only while the
ready flag is clear (the consumer has claimed every completed window
before the producer's next append — the timing assumption of the
design). -/
inductive DiscStep : inference_t → inference_t → Prop
  | append (st : inference_t) (x : Int) :
      st.buf_ready = false → DiscStep st (appendSample st x)
  | claim (st : inference_t) : DiscStep st (recordClearReady st)

/-- States reachable from `start` by disciplined interleavings. -/
inductive DiscReachable (start : inference_t) : inference_t → Prop
  | refl : DiscReachable start start
  | step {s t : inference_t} :
      DiscReachable start s → DiscStep s t → DiscReachable start t

/-- C4 (amended): in every state reachable by an interleaving in which
the producer never appends while `buf_ready` is still raised (each
completed window is claimed before the next append — the documented
timing assumption), `buf_ready = true` implies `buf_count = 0`: the flag
is raised and the counter reset in the same atomic step, and no
disciplined step separates them again. -/
theorem c4_ready_implies_count_zero_disciplined (b : List Int) (N : ℕ)
    (st : inference_t) (h : DiscReachable ⟨b, false, 0, N⟩ st) :
    st.buf_ready = true → st.buf_count = 0 := by
  induction h with
  | refl => exact fun hr => absurd hr Bool.false_ne_true
  | step _ hs ih =>
      cases hs with
      | append x hready => exact appendSample_ready_of_false _ x hready
      | claim => exact fun hr => absurd hr Bool.false_ne_true

/-- Witness for C4 (amended) at a concrete disciplined state: two
appends to a fresh two-sample window complete it, and in the resulting
state — whose ready flag is raised — the counter is 0. -/
theorem c4_ready_implies_count_zero_disciplined_witness :
    (appendSample (appendSample ⟨[0, 0], false, 0, 2⟩ 4) 5).buf_count = 0 :=
  c4_ready_implies_count_zero_disciplined [0, 0] 2
    (appendSample (appendSample ⟨[0, 0], false, 0, 2⟩ 4) 5)
    (DiscReachable.step
      (DiscReachable.step DiscReachable.refl
        (DiscStep.append ⟨[0, 0], false, 0, 2⟩ 4 (by decide)))
      (DiscStep.append (appendSample ⟨[0, 0], false, 0, 2⟩ 4) 5 (by decide)))
    (by decide)

/-- C5: in every state reachable from a fresh window of positive size
`N` by ANY interleaving of producer appends and consumer claims, the
window size is still `N` and `buf_count < N`. Hence `0 ≤ buf_count ≤
n_samples` always holds, and since each append writes
`inference.buffer` at index `buf_count` before incrementing, every
append writes at an index strictly below `n_samples`. -/
theorem c5_buf_count_bounded (b : List Int) (N : ℕ) (st : inference_t)
    (hN : 0 < N) (h : BufReachable ⟨b, false, 0, N⟩ st) :
    st.buf_count < st.n_samples ∧ st.n_samples = N := by
  induction h with
  | refl => exact ⟨hN, rfl⟩
  | step _ hs ih =>
      cases hs with
      | append x =>
          obtain ⟨ihc, ihn⟩ := ih
          obtain ⟨h1, h2⟩ := appendSample_count_lt _ x ihc
          exact ⟨h1, h2.trans ihn⟩
      | claim => exact ih

/-- Witness for C5: after two appends and a claim on a window of size 2,
the counter is 0, strictly below the window size 2. -/
theorem c5_buf_count_bounded_witness :
    (recordClearReady
        (audio_inference_callback ⟨[0, 0], false, 0, 2⟩ [4, 5])).buf_count
      < (recordClearReady
        (audio_inference_callback ⟨[0, 0], false, 0, 2⟩ [4, 5])).n_samples ∧
    (recordClearReady
        (audio_inference_callback ⟨[0, 0], false, 0, 2⟩ [4, 5])).n_samples = 2 :=
  c5_buf_count_bounded [0, 0] 2 _ (by decide)
    (BufReachable.step
      (BufReachable.step
        (BufReachable.step BufReachable.refl
          (BufStep.append ⟨[0, 0], false, 0, 2⟩ 4))
        (BufStep.append (appendSample ⟨[0, 0], false, 0, 2⟩ 4) 5))
      (BufStep.claim
        (appendSample (appendSample ⟨[0, 0], false, 0, 2⟩ 4) 5)))

/-- Process-wide lifecycle state: the inference buffer, the
`record_status` session flag (line 21), and two instrumentation
counters demanded by the spec's testable properties — `spawnCount`
counts `xTaskCreate` calls and `freeCount` counts `ei_free` calls on
`inference.buffer`. -/
structure SystemState where
  inf : inference_t
  record_status : Bool
  spawnCount : ℕ
  freeCount : ℕ
deriving DecidableEq, Repr

/-- Result of `microphone_inference_start`: the returned `bool`, the
post-state, and the argument passed to the spawned `capture_samples`
task (`none` when no task was spawned). -/
structure StartResult where
  ret : Bool
  state : SystemState
  spawnedArg : Option ℕ
deriving DecidableEq, Repr

/-- `microphone_inference_start(n_samples)` (lines 214-238). `alloc` is
the outcome of `malloc(n_samples * sizeof(int16_t))`: `none` for a null
return, `some buf` for a fresh block with (uninitialised) contents
`buf`. On a null return the function returns `false` at once — the
counters, the flag and the session state are untouched and no task is
spawned. On success it zeroes `buf_count` and `buf_ready`, stores
`n_samples`, sets `record_status = true` and spawns `capture_samples`
with argument `(void*)sample_buffer_size` (line 228). -/
def microphone_inference_start (n_samples : ℕ) (alloc : Option (List Int))
    (s : SystemState) : StartResult :=
  match alloc with
  | none => { ret := false, state := s, spawnedArg := none }
  | some buf =>
      { ret := true
        state :=
          { inf := { buffer := buf, buf_ready := false, buf_count := 0,
                     n_samples := n_samples }
            record_status := true
            spawnCount := s.spawnCount + 1
            freeCount := s.freeCount }
        spawnedArg := some sample_buffer_size }

/-- `microphone_inference_end` (lines 282-285): set `record_status`
to false and call `ei_free(inference.buffer)` — unconditionally, with no
guard against the buffer having been freed already. -/
def microphone_inference_end (s : SystemState) : SystemState :=
  { s with record_status := false, freeCount := s.freeCount + 1 }

/-- The batch of raw ADC values read by one cycle of `capture_samples`
(lines 192-194): `cnt` successive reads of `adc1_get_raw(ADC1_CHANNEL_6)`,
modelled as positions `start, start+1, …` of the raw sample stream
`raw`. -/
def readBatch (raw : ℕ → Int) (start cnt : ℕ) : List Int :=
  (List.range cnt).map (fun i => raw (start + i))

/-- Outcome of a run of the `capture_samples` task body: the final
inference-buffer state, the concatenation of all samples forwarded to
`audio_inference_callback` (hence appended), the number of callback
invocations, and whether the task reached `vTaskDelete(NULL)` (line
204; `false` only when the modelling fuel ran out mid-loop). -/
structure CaptureOut where
  state : inference_t
  appended : List Int
  calls : ℕ
  terminated : Bool
deriving DecidableEq, Repr

/-- The `capture_samples` task body (lines 188-205), bound to the spawn
argument `samples_to_read`. Because the loop races with
`microphone_inference_end`, the shared `record_status` flag is modelled
as the stream `flag` of the values observed at each successive read:
each cycle observes the flag at the `while` head (index `ob`), reads
`samples_to_read` raw samples into the scratch buffer, re-checks the
flag (index `ob + 1`), and only then forwards the batch through
`audio_inference_callback`; a false observation at either point exits
the loop and reaches `vTaskDelete`. `fuel` bounds the number of cycles. -/
def capture_samples (samples_to_read : ℕ) (flag : ℕ → Bool) (raw : ℕ → Int) :
    ℕ → ℕ → ℕ → inference_t → CaptureOut
  | 0, _, _, st => ⟨st, [], 0, false⟩
  | fuel + 1, ob, ri, st =>
    if flag ob then
      let batch := readBatch raw ri samples_to_read
      if flag (ob + 1) then
        let rest := capture_samples samples_to_read flag raw fuel (ob + 2)
          (ri + samples_to_read) (audio_inference_callback st batch)
        ⟨rest.state, batch ++ rest.appended, rest.calls + 1, rest.terminated⟩
      else ⟨st, [], 0, true⟩
    else ⟨st, [], 0, true⟩

/-- Every run of the capture loop forwards exactly `samples_to_read`
samples into the inference buffer per callback invocation: the total
number of appended samples is `samples_to_read` times the number of
cycles that reached the callback. -/
lemma capture_appended_length (samples_to_read : ℕ) (flag : ℕ → Bool)
    (raw : ℕ → Int) :
    ∀ (fuel ob ri : ℕ) (st : inference_t),
      (capture_samples samples_to_read flag raw fuel ob ri st).appended.length
        = samples_to_read
          * (capture_samples samples_to_read flag raw fuel ob ri st).calls := by
  intro fuel
  induction fuel with
  | zero => intro ob ri st; simp [capture_samples]
  | succ fuel ih =>
      intro ob ri st
      by_cases h1 : flag ob
      · by_cases h2 : flag (ob + 1)
        · simp only [capture_samples, h1, h2, if_true]
          simp [readBatch, ih, Nat.mul_add]
          omega
        · simp [capture_samples, h1, h2]
      · simp [capture_samples, h1]

/-- Counterexample to C1: the spawned producer task is NOT bound to
`window_size`. A successful `microphone_inference_start 16000` (the
spec's reference window size) passes `sample_buffer_size = 2048` — not
16000 — as the task argument (line 228), so each capture cycle handles
2048 samples, not `window_size`. -/
theorem c1_spawn_arg_counterexample :
    (microphone_inference_start 16000 (some (List.replicate 16000 0))
        ⟨⟨[], false, 0, 0⟩, false, 0, 0⟩).ret = true ∧
    (microphone_inference_start 16000 (some (List.replicate 16000 0))
        ⟨⟨[], false, 0, 0⟩, false, 0, 0⟩).spawnedArg = some 2048 ∧
    (2048 : ℕ) ≠ 16000 := by
  refine ⟨rfl, rfl, by decide⟩

/-- C1 (amended): every successful `start` spawns `capture_samples`
bound to `sample_buffer_size = 2048` (not to `window_size`), and the
task so bound reads exactly 2048 raw samples per cycle into the scratch
buffer and forwards exactly 2048 samples per callback invocation into
the inference buffer. -/
theorem c1_capture_bound_to_sample_buffer_size (n_samples : ℕ)
    (buf : List Int) (s : SystemState) (flag : ℕ → Bool) (raw : ℕ → Int)
    (fuel ob ri : ℕ) (st : inference_t) :
    (microphone_inference_start n_samples (some buf) s).ret = true ∧
    (microphone_inference_start n_samples (some buf) s).spawnedArg
      = some sample_buffer_size ∧
    (readBatch raw ri sample_buffer_size).length = sample_buffer_size ∧
    (capture_samples sample_buffer_size flag raw fuel ob ri st).appended.length
      = sample_buffer_size
        * (capture_samples sample_buffer_size flag raw fuel ob ri st).calls := by
  refine ⟨rfl, rfl, by simp [readBatch], ?_⟩
  exact capture_appended_length sample_buffer_size flag raw fuel ob ri st

/-- C6: when `malloc` returns null, `microphone_inference_start` returns
`false` and does nothing else — the whole lifecycle state (buffer
fields, `record_status`, spawn and free counters) is exactly the
pre-state, and no producer task is spawned (`spawnedArg = none`, spawn
counter unchanged). -/
theorem c6_alloc_failure_no_action (n_samples : ℕ) (s : SystemState) :
    microphone_inference_start n_samples none s
      = { ret := false, state := s, spawnedArg := none } :=
  rfl

/-- Counterexample to C7: a second `microphone_inference_end` is NOT a
no-op — `ei_free(inference.buffer)` runs again (the free counter rises
from 1 to 2), a latent double free, because the function frees
unconditionally with no guard. -/
theorem c7_second_end_frees_again_counterexample :
    (microphone_inference_end
        (microphone_inference_end ⟨⟨[0, 0], false, 0, 2⟩, true, 1, 0⟩)).freeCount
      = 2 ∧
    (microphone_inference_end ⟨⟨[0, 0], false, 0, 2⟩, true, 1, 0⟩).freeCount
      = 1 ∧
    microphone_inference_end
        (microphone_inference_end ⟨⟨[0, 0], false, 0, 2⟩, true, 1, 0⟩)
      ≠ microphone_inference_end ⟨⟨[0, 0], false, 0, 2⟩, true, 1, 0⟩ := by
  refine ⟨rfl, rfl, by decide⟩

/-- C7 (amended): a second `stop()` is idempotent on the session flag
(`record_status` is simply set to false again) and leaves the inference
buffer fields untouched, but it is NOT a no-op on storage: it calls
`ei_free` on the already-freed buffer a second time (the free counter
increments on every call). -/
theorem c7_end_idempotent_on_flag_not_on_free (s : SystemState) :
    (microphone_inference_end (microphone_inference_end s)).record_status
      = false ∧
    (microphone_inference_end (microphone_inference_end s)).inf
      = (microphone_inference_end s).inf ∧
    (microphone_inference_end (microphone_inference_end s)).freeCount
      = s.freeCount + 2 :=
  ⟨rfl, rfl, rfl⟩

/-- C9: once `record_status` is observed false, the producer appends
nothing further and terminates. If every flag observation from the
current `while`-head onward reads false (the state after
`microphone_inference_end`, since nothing re-raises the flag during a
session), the capture loop exits immediately: the inference buffer is
untouched, no callback runs, and the task reaches `vTaskDelete`. -/
theorem c9_stop_halts_producer (samples_to_read : ℕ) (flag : ℕ → Bool)
    (raw : ℕ → Int) (fuel ob ri : ℕ) (st : inference_t)
    (h : ∀ n, ob ≤ n → flag n = false) :
    capture_samples samples_to_read flag raw (fuel + 1) ob ri st
      = ⟨st, [], 0, true⟩ := by
  have hob : flag ob = false := h ob (Nat.le_refl ob)
  simp [capture_samples, hob]

/-- Witness for C9: with the flag constantly false, one fueled cycle of
a task bound to 2048 samples exits at once with no appends. -/
theorem c9_stop_halts_producer_witness :
    capture_samples 2048 (fun _ => false) (fun _ => 0) 1 0 0 ⟨[0, 0], false, 0, 2⟩
      = ⟨⟨[0, 0], false, 0, 2⟩, [], 0, true⟩ :=
  c9_stop_halts_producer 2048 (fun _ => false) (fun _ => 0) 0 0 0
    ⟨[0, 0], false, 0, 2⟩ (fun _ _ => rfl)

/-- A digital output level, the argument of `digitalWrite`. -/
inductive PinLevel where
  | low
  | high
deriving DecidableEq, Repr

/-- The actuation threshold of the sketch: the literal `0.40000`
compared against `result.classification[0].value` on line 144. -/
def actuation_threshold : ℚ := 0.40000

/-- The observable `digitalWrite` trace of one `loop` iteration
(lines 101-152), as a function of the value returned by
`microphone_inference_record` and of the classifier outcome
(`Except.error r` for `r != EI_IMPULSE_OK`, `Except.ok conf` for success
with `result.classification[0].value = conf`). A failed recording or a
failed classifier run abandons the iteration before any write; on
success the sketch always writes pin 33 LOW first (line 141) and then
writes it HIGH exactly when `conf > 0.40000` (lines 144-148). -/
def loop_step (m : Bool) (classifier : Except Int ℚ) : List (ℕ × PinLevel) :=
  if m = false then []
  else
    match classifier with
    | Except.error _ => []
    | Except.ok conf =>
        (33, PinLevel.low) ::
          (if actuation_threshold < conf then [(33, PinLevel.high)] else [])

/-- The level a pin is left at by a trace of `digitalWrite` calls: the
last write to that pin, if any. -/
def finalLevel (writes : List (ℕ × PinLevel)) (pin : ℕ) : Option PinLevel :=
  ((writes.filter (fun w => w.1 == pin)).map Prod.snd).getLast?

/-- C8: on every successful loop iteration the actuator pin 33 is
deasserted first (the head of the write trace is `(33, LOW)`), and it is
left asserted exactly when the confidence of label index 0 strictly
exceeds the threshold `0.40000`; at a confidence exactly equal to the
threshold the trace is the single deassert, so no actuation occurs. -/
theorem c8_actuator_threshold_boundary (conf : ℚ) :
    (loop_step true (Except.ok conf)).head? = some (33, PinLevel.low) ∧
    (finalLevel (loop_step true (Except.ok conf)) 33 = some PinLevel.high
      ↔ actuation_threshold < conf) ∧
    loop_step true (Except.ok actuation_threshold) = [(33, PinLevel.low)] ∧
    finalLevel (loop_step true (Except.ok actuation_threshold)) 33
      = some PinLevel.low := by
  refine ⟨?_, ?_, ?_, ?_⟩
  · simp [loop_step]
  · by_cases h : actuation_threshold < conf
    · simp [loop_step, finalLevel, h]
    · simp [loop_step, finalLevel, h]
  · simp [loop_step]
  · simp [loop_step, finalLevel]

/-- C10: `microphone_inference_record` has no failing path — whenever
its polling loop returns (it spins while `buf_ready == 0` and otherwise
just returns `ret = true`), the returned value is `true`, so the
`if (!m)` error branch of `loop` (lines 104-107) can never be taken:
the write trace of the iteration is the same as with `m = true`. -/
theorem c10_record_never_fails (readyAt : ℕ → Bool) (t fuel : ℕ) (b : Bool)
    (classifier : Except Int ℚ)
    (h : recordWaitLoop readyAt t fuel = some b) :
    b = true ∧ loop_step b classifier = loop_step true classifier := by
  have hb : b = true := by
    induction fuel generalizing t with
    | zero => simp [recordWaitLoop] at h
    | succ fuel ih =>
        simp only [recordWaitLoop] at h
        by_cases hr : readyAt t = false
        · rw [if_pos hr] at h
          exact ih _ h
        · rw [if_neg hr] at h
          exact (Option.some.injEq _ _ ▸ h).symm
  exact ⟨hb, by rw [hb]⟩

/-- Witness for C10: a poll stream that is ready at once makes the
polling loop return `some true`. -/
theorem c10_record_never_fails_witness :
    (true : Bool) = true ∧
    loop_step true (Except.ok 0) = loop_step true (Except.ok 0) :=
  c10_record_never_fails (fun _ => true) 0 1 true (Except.ok 0) (by simp [recordWaitLoop])

end LumusMax9814
